import Mathlib

/-!
Verification development for the dagman workflow engine core.

The definitions below are a shallow embedding, translated from the Go
sources, of the parts of the engine the verified properties talk about:

* `internal/scheduler/job.go` — the cron job pre-run guards
  (`jobImpl.Start`, `jobImpl.ready`, `jobImpl.skipIfSuccessful`,
  `jobImpl.prevExecTime`);
* `internal/cmdutil/cmdutil.go` — shell-style command splitting
  (`ParsePipedCommand`, `SplitCommand`, `SplitCommandWithEval`);
* `internal/agent/agent.go` — the run agent (`Agent.Run`,
  `Agent.Status`, `Agent.HandleHTTP`, `Agent.checkIsAlreadyRunning`).

Go `time.Time` values are embedded as `Int` nanoseconds since the Go zero
time (January 1, year 1, 00:00:00 UTC); Go `time.Duration` values are
`Int` nanoseconds.
-/

namespace Dagman

/-- One second in nanoseconds (Go `time.Second`). -/
def secondNs : Int := 1000000000

/-- One minute in nanoseconds (Go `time.Minute`). -/
def minuteNs : Int := 60 * secondNs

/-- Go `t.Truncate(time.Minute)`: round the instant down to a multiple of
one minute counted from the Go zero time. -/
def truncMinute (t : Int) : Int := minuteNs * (t / minuteNs)

/-! ## Calendar arithmetic for parsing RFC 3339 timestamps -/

/-- Leap year predicate of the proleptic Gregorian calendar. -/
def isLeap (y : Nat) : Bool := (y % 4 == 0 && y % 100 != 0) || y % 400 == 0

/-- Number of days in month `m` (1-based) of year `y`. -/
def daysInMonth (y m : Nat) : Nat :=
  if m == 2 then (if isLeap y then 29 else 28)
  else if m == 4 || m == 6 || m == 9 || m == 11 then 30
  else 31

/-- Days from January 1 of year 1 to January 1 of year `y` (proleptic
Gregorian). -/
def daysBeforeYear (y : Nat) : Nat :=
  let n := y - 1
  n * 365 + n / 4 - n / 100 + n / 400

/-- Days from January 1 to the first day of month `m` (1-based) in year
`y`. -/
def daysBeforeMonth (y m : Nat) : Nat :=
  (List.range (m - 1)).foldl (fun acc i => acc + daysInMonth y (i + 1)) 0

/-- Days from the Go zero time (January 1, year 1) to the date
`y`-`m`-`d`. -/
def daysFromZero (y m d : Nat) : Nat :=
  daysBeforeYear y + daysBeforeMonth y m + (d - 1)

/-- Decimal digit value of a character, if it is a digit. -/
def digitVal (c : Char) : Option Nat :=
  if c.isDigit then some (c.toNat - 48) else none

/-- Combine two digit characters into a two-digit number. -/
def twoDigits (a b : Char) : Option Nat := do
  let x ← digitVal a
  let y ← digitVal b
  pure (x * 10 + y)

/-- Combine four digit characters into a four-digit number. -/
def fourDigits (a b c d : Char) : Option Nat := do
  let x ← twoDigits a b
  let y ← twoDigits c d
  pure (x * 100 + y)

/-- Modelled from the spec: `stringutil.ParseTime` (its source file is not
under `src/`; only its test is). Per the spec (§6, "Timestamps are RFC
3339 UTC; empty time is serialized as `\"-\"`") and the test
`Test_ParseTime`, the string `"-"` parses to the zero time and an RFC 3339
UTC timestamp `YYYY-MM-DDTHH:MM:SSZ` parses to the corresponding instant.
The legacy local-time format accepted by the Go code depends on the
process time zone and is not modelled. Returns nanoseconds since the Go
zero time, or `none` when the string parses as neither form. -/
def ParseTime (s : String) : Option Int :=
  if s == "-" then some 0
  else
    match s.toList with
    | [y1, y2, y3, y4, '-', mo1, mo2, '-', d1, d2, 'T',
       h1, h2, ':', mi1, mi2, ':', s1, s2, 'Z'] => do
      let y ← fourDigits y1 y2 y3 y4
      let mo ← twoDigits mo1 mo2
      let d ← twoDigits d1 d2
      let h ← twoDigits h1 h2
      let mi ← twoDigits mi1 mi2
      let sec ← twoDigits s1 s2
      if 1 ≤ y && 1 ≤ mo && mo ≤ 12 && 1 ≤ d && d ≤ daysInMonth y mo &&
          h ≤ 23 && mi ≤ 59 && sec ≤ 59 then
        pure ((((daysFromZero y mo d) * 86400 + h * 3600 + mi * 60 + sec : Nat) :
          Int) * secondNs)
      else none
    | _ => none

/-! ## Scheduler status and persisted status model -/

/-- `scheduler.Status` (= `dagscheduler.Status` in the cron-scheduler
package): the overall status of one DAG run. -/
inductive SchedulerStatus
  | none
  | running
  | error
  | cancel
  | success
  deriving DecidableEq, Repr

/-- The projection of `model.Status` (one persisted run snapshot) that the
embedded operations read and write: the overall status and the formatted
timestamps, plus identifying fields. -/
structure MStatus where
  requestId : String
  name : String
  status : SchedulerStatus
  startedAt : String
  finishedAt : String
  deriving DecidableEq, Repr

/-! ## Cron job guards (`internal/scheduler/job.go`) -/

/-- Errors returned by the job pre-run guards (`errJobRunning`,
`errJobFinished`, `errJobSuccess` in `job.go`). -/
inductive JobErr
  | jobRunning
  | jobFinished
  | jobSuccess
  deriving DecidableEq, Repr

/-- `jobImpl`: the data of one scheduled job. `schedNext` embeds the
`cron.Schedule.Next` method of the parsed cron expression; `next` is the
entry's scheduled fire time; `skipIfSuccessful` is `DAG.SkipIfSuccessful`. -/
structure JobImpl where
  skipIfSuccessful : Bool
  next : Int
  schedNext : Int → Int

/-- `jobImpl.prevExecTime`: previous schedule time, obtained by
subtracting from `Next` the distance from `Next` to the following firing
(`Schedule.Next(Next.Add(time.Second))`). -/
def JobImpl.prevExecTime (job : JobImpl) : Int :=
  let nextNextRunTime := job.schedNext (job.next + secondNs)
  let duration := nextNextRunTime - job.next
  job.next - duration

/-- `jobImpl.skipIfSuccessful`: skip (return `errJobSuccess`) when the DAG
is configured with `SkipIfSuccessful`, the latest run succeeded, and its
minute-truncated start time falls in `[prevExecTime, Next)`. -/
def JobImpl.skipIfSuccessfulCheck (job : JobImpl) (latestStatus : MStatus)
    (latestStartedAt : Int) : Option JobErr :=
  if !job.skipIfSuccessful || latestStatus.status ≠ SchedulerStatus.success then
    Option.none
  else
    let prevExecTime := job.prevExecTime
    if (latestStartedAt > prevExecTime ∨ latestStartedAt = prevExecTime) ∧
        latestStartedAt < job.next then
      some JobErr.jobSuccess
    else
      Option.none

/-- `jobImpl.ready`: guard against an already-running job, then parse the
persisted `StartedAt` (on parse failure, log and continue — return no
error), truncate it to the minute, return `errJobFinished` when it is on
or after `Next`, and finally consult the skip-if-successful check. -/
def JobImpl.ready (job : JobImpl) (latestStatus : MStatus) : Option JobErr :=
  if latestStatus.status = SchedulerStatus.running then
    some JobErr.jobRunning
  else
    match ParseTime latestStatus.startedAt with
    | Option.none => Option.none
    | some t =>
      let latestStartedAt := truncMinute t
      if latestStartedAt > job.next ∨ latestStartedAt = job.next then
        some JobErr.jobFinished
      else
        job.skipIfSuccessfulCheck latestStatus latestStartedAt

/-- Observable outcome of `jobImpl.Start`: the `GetLatestStatus` error is
propagated; a guard error is returned; otherwise `Client.Start` is
invoked (`started`). -/
inductive StartOutcome
  | clientErr
  | jobErr (e : JobErr)
  | started
  deriving DecidableEq, Repr

/-- `jobImpl.Start`: fetch the latest status (embedded as the
`Option MStatus` argument, `Option.none` standing for a failed
`Client.GetLatestStatus` call), return `errJobRunning` when it reports
`StatusRunning`, run the `ready` guards, and otherwise invoke
`Client.Start`. -/
def JobImpl.start (job : JobImpl) (latest : Option MStatus) : StartOutcome :=
  match latest with
  | Option.none => StartOutcome.clientErr
  | some latestStatus =>
    if latestStatus.status = SchedulerStatus.running then
      StartOutcome.jobErr JobErr.jobRunning
    else
      match job.ready latestStatus with
      | some e => StartOutcome.jobErr e
      | Option.none => StartOutcome.started

/-- `cron.Schedule.Next` for the expression `* * * * *` (standard 5-field
cron, robfig/cron): the next minute boundary strictly after the given
instant, at second 0. -/
def everyMinuteNext (t : Int) : Int := minuteNs * (t / minuteNs + 1)

/-! ## Command splitting (`internal/cmdutil/cmdutil.go`) -/

/-- Go `unicode.IsSpace`: the Latin-1 white space characters plus the
Unicode `White_Space` code points above `U+00FF`. -/
def goIsSpace (c : Char) : Bool :=
  if c.toNat ≤ 0xFF then
    c.toNat == 0x20 || c.toNat == 0x9 || c.toNat == 0xA || c.toNat == 0xB ||
      c.toNat == 0xC || c.toNat == 0xD || c.toNat == 0x85 || c.toNat == 0xA0
  else
    c.toNat == 0x1680 || (0x2000 ≤ c.toNat && c.toNat ≤ 0x200A) ||
      c.toNat == 0x2028 || c.toNat == 0x2029 || c.toNat == 0x202F ||
      c.toNat == 0x205F || c.toNat == 0x3000

/-- The quoting state of the tokenizer loop in `ParsePipedCommand`
(`inQuote`, `inBacktick`, `inEscape`). -/
structure TokState where
  inQuote : Bool
  inBacktick : Bool
  inEscape : Bool
  deriving DecidableEq, Repr

/-- The first loop of `ParsePipedCommand` (`cmdutil.go` lines 39-71): scan
the runes, accumulating the `current` token and the emitted `tokens`; an
unquoted, unescaped `|` flushes the current token and emits a separator
token `"|"`; unquoted whitespace flushes the current token; quote,
backtick and backslash characters are kept inside the token. -/
def tokenizeGo : List Char → TokState → List Char → List String → List String
  | [], _, current, tokens =>
      if current = [] then tokens else tokens ++ [String.mk current]
  | r :: rest, st, current, tokens =>
      if st.inEscape = true then
        tokenizeGo rest { st with inEscape := false } (current ++ [r]) tokens
      else if r = '\\' then
        tokenizeGo rest { st with inEscape := true } (current ++ [r]) tokens
      else if r = '"' ∧ st.inBacktick = false then
        tokenizeGo rest { st with inQuote := !st.inQuote } (current ++ [r]) tokens
      else if r = '`' then
        tokenizeGo rest { st with inBacktick := !st.inBacktick } (current ++ [r]) tokens
      else if r = '|' ∧ st.inQuote = false ∧ st.inBacktick = false then
        tokenizeGo rest st []
          ((if current = [] then tokens else tokens ++ [String.mk current]) ++ ["|"])
      else if goIsSpace r = true ∧ st.inQuote = false ∧ st.inBacktick = false then
        tokenizeGo rest st []
          (if current = [] then tokens else tokens ++ [String.mk current])
      else
        tokenizeGo rest st (current ++ [r]) tokens

/-- The second loop of `ParsePipedCommand` (`cmdutil.go` lines 73-89):
group the token stream into pipeline segments at the `"|"` separator
tokens, dropping empty segments. -/
def groupTokens : List String → List String → List (List String) → List (List String)
  | [], currentCmd, pipeline =>
      if currentCmd = [] then pipeline else pipeline ++ [currentCmd]
  | token :: rest, currentCmd, pipeline =>
      if token = "|" then
        if currentCmd = [] then groupTokens rest [] pipeline
        else groupTokens rest [] (pipeline ++ [currentCmd])
      else
        groupTokens rest (currentCmd ++ [token]) pipeline

/-- `ParsePipedCommand`: split a shell-style command string into a
pipeline, each sub-list one command. The Go function's error return is
always `nil`, so it is embedded as a plain value. -/
def ParsePipedCommand (cmdString : String) : List (List String) :=
  groupTokens (tokenizeGo cmdString.toList ⟨false, false, false⟩ [] []) [] []

/-- Errors of `SplitCommand` / `SplitCommandWithEval`:
`ErrCommandIsEmpty`, plus a marker for the index panic Go would raise on
an empty first segment (unreachable, since `ParsePipedCommand` never
produces empty segments). -/
inductive SplitErr
  | commandIsEmpty
  | panicEmptySegment
  deriving DecidableEq, Repr

/-- The common tail of `SplitCommand` and `SplitCommandWithEval`
(`cmdutil.go` lines 123-143 and 160-180): when the pipeline has more than
one segment, the command is the first token of the first segment and the
args are the rest of the first segment followed by `"|"` and the tokens of
each later segment; a pipeline of one segment yields that segment's head
and tail; an empty pipeline (or empty segment) is `ErrCommandIsEmpty`. -/
def flattenPipeline (pipeline : List (List String)) :
    Except SplitErr (String × List String) :=
  if 1 < pipeline.length then
    match pipeline with
    | (c :: restTok) :: restSegs =>
        Except.ok (c, restTok ++ (restSegs.map (fun command => "|" :: command)).flatten)
    | _ => Except.error SplitErr.panicEmptySegment
  else
    match pipeline with
    | [] => Except.error SplitErr.commandIsEmpty
    | [] :: _ => Except.error SplitErr.commandIsEmpty
    | (c :: restTok) :: _ => Except.ok (c, restTok)

/-- `SplitCommand`: parse the pipeline and flatten it back into one
command plus args with literal `"|"` tokens between segments. -/
def SplitCommand (cmd : String) : Except SplitErr (String × List String) :=
  flattenPipeline (ParsePipedCommand cmd)

/-- `SplitCommandWithEval`: like `SplitCommand`, but first rewrite the
tokens of every pipeline segment **of length at least two** (`cmdutil.go`
line 105: `if len(command) < 2 { continue }`) with the per-token
evaluation of lines 108-120. That evaluation (environment-variable
expansion via `os.ExpandEnv`, escape rewriting, and backtick command
substitution via `SubstituteCommands`) reads the process environment and
executes shell commands, so it is embedded as the function argument
`evalFn`; its error path is not modelled. -/
def SplitCommandWithEval (evalFn : String → String) (cmd : String) :
    Except SplitErr (String × List String) :=
  let pipeline := ParsePipedCommand cmd
  let pipeline := pipeline.map (fun command =>
    if command.length < 2 then command else command.map evalFn)
  flattenPipeline pipeline

/-! ### Specification-side splitters

`splitPipelineSpecCore` renders claim C6's amended wording as a direct
one-pass splitter: segments are cut exactly at `|` characters that are
outside double quotes, outside backticks and not escaped by a backslash;
unquoted whitespace separates tokens within a segment; empty segments are
dropped. `claimSplitCore` renders the claim's original wording, which
knows nothing of backslash escapes. -/

/-- Close the current token: a nonempty run of characters becomes the next
token of the current segment. -/
def closeTok (current : List Char) (seg : List String) : List String :=
  if current = [] then seg else seg ++ [String.mk current]

/-- Close the current segment: a nonempty segment becomes the next
pipeline segment. -/
def closeSeg (seg : List String) (acc : List (List String)) :
    List (List String) :=
  if seg = [] then acc else acc ++ [seg]

/-- One-pass pipeline splitter following the amended wording of claim C6:
cut a segment at every `|` that is outside double quotes, outside
backticks and not preceded by an unconsumed backslash; a backslash escapes
the character after it; a double quote toggles quoting unless inside
backticks; a backtick toggles backtick mode; unquoted whitespace ends the
current token. All quoting characters stay inside their token. -/
def splitPipelineSpecCore :
    List Char → Bool → Bool → Bool → List Char → List String →
      List (List String) → List (List String)
  | [], _, _, _, current, seg, acc => closeSeg (closeTok current seg) acc
  | r :: rest, inQuote, inBacktick, inEscape, current, seg, acc =>
      if inEscape = true then
        splitPipelineSpecCore rest inQuote inBacktick false (current ++ [r]) seg acc
      else if r = '\\' then
        splitPipelineSpecCore rest inQuote inBacktick true (current ++ [r]) seg acc
      else if r = '"' ∧ inBacktick = false then
        splitPipelineSpecCore rest (!inQuote) inBacktick false (current ++ [r]) seg acc
      else if r = '`' then
        splitPipelineSpecCore rest inQuote (!inBacktick) false (current ++ [r]) seg acc
      else if r = '|' ∧ inQuote = false ∧ inBacktick = false then
        splitPipelineSpecCore rest false false false [] []
          (closeSeg (closeTok current seg) acc)
      else if goIsSpace r = true ∧ inQuote = false ∧ inBacktick = false then
        splitPipelineSpecCore rest inQuote inBacktick false []
          (closeTok current seg) acc
      else
        splitPipelineSpecCore rest inQuote inBacktick false (current ++ [r]) seg acc

/-- The full spec-side pipeline splitter (amended claim C6), starting from
the neutral state. -/
def splitPipelineSpec (cmdString : String) : List (List String) :=
  splitPipelineSpecCore cmdString.toList false false false [] [] []

/-- One-pass pipeline splitter following claim C6's original wording
literally: segments are cut at every `|` character that is outside double
quotes and outside backticks; a `|` or whitespace inside double quotes or
inside backticks stays within its token. The wording mentions no
backslash escapes, so a backslash here is an ordinary character. -/
def claimSplitCore :
    List Char → Bool → Bool → List Char → List String →
      List (List String) → List (List String)
  | [], _, _, current, seg, acc => closeSeg (closeTok current seg) acc
  | r :: rest, inQuote, inBacktick, current, seg, acc =>
      if r = '"' ∧ inBacktick = false then
        claimSplitCore rest (!inQuote) inBacktick (current ++ [r]) seg acc
      else if r = '`' then
        claimSplitCore rest inQuote (!inBacktick) (current ++ [r]) seg acc
      else if r = '|' ∧ inQuote = false ∧ inBacktick = false then
        claimSplitCore rest false false [] [] (closeSeg (closeTok current seg) acc)
      else if goIsSpace r = true ∧ inQuote = false ∧ inBacktick = false then
        claimSplitCore rest inQuote inBacktick [] (closeTok current seg) acc
      else
        claimSplitCore rest inQuote inBacktick (current ++ [r]) seg acc

/-- Claim C6's original wording as a whole: split at every `|` outside
double quotes and backticks, then flatten as the claim describes. -/
def claimSplitCommand (cmd : String) : Except SplitErr (String × List String) :=
  flattenPipeline (claimSplitCore cmd.toList false false [] [] [])

/-- Claim C7's original wording as a whole: apply the token evaluation to
every argument of every pipeline segment — including segments consisting
of a single token — then flatten. -/
def claimSplitCommandWithEval (evalFn : String → String) (cmd : String) :
    Except SplitErr (String × List String) :=
  flattenPipeline ((ParsePipedCommand cmd).map (fun command => command.map evalFn))

/-! ## Run agent (`internal/agent/agent.go`) -/

/-- The observable state an `Agent` reads when building a status snapshot:
the scheduler's aggregate status of the graph (`a.scheduler.Status(a.graph)`),
whether the graph has started (`a.graph.IsStarted()`), and the identifying
fields copied into the snapshot. -/
structure AgentState where
  schedulerStatus : SchedulerStatus
  graphStarted : Bool
  reqID : String
  dagName : String
  startAt : String
  finishAt : String
  deriving DecidableEq, Repr

/-- `Agent.Status` (`agent.go` lines 183-223): build a `model.Status`
snapshot; a scheduler status of `StatusNone` on a started graph is
coerced to `StatusRunning`. The per-node and handler-node snapshots are
not read by any verified property and are omitted from `MStatus`. -/
def Agent.statusOf (a : AgentState) : MStatus :=
  let schedulerStatus :=
    if a.schedulerStatus = SchedulerStatus.none ∧ a.graphStarted = true then
      SchedulerStatus.running
    else a.schedulerStatus
  { requestId := a.reqID, name := a.dagName, status := schedulerStatus,
    startedAt := a.startAt, finishedAt := a.finishAt }

/-- HTTP methods distinguished by `Agent.HandleHTTP`. -/
inductive HTTPMethod
  | get
  | post
  | other
  deriving DecidableEq, Repr

/-- Response bodies of `Agent.HandleHTTP`: the JSON-serialized status
snapshot (embedded as the snapshot value; `ToJson` cannot fail in the
model), the literal `"OK"`, or an error text. -/
inductive HTTPBody
  | statusJson (s : MStatus)
  | okText
  | errorText (code : Nat) (msg : String)
  deriving DecidableEq, Repr

/-- An HTTP response: status code and body. -/
structure HTTPResponse where
  code : Nat
  body : HTTPBody
  deriving DecidableEq, Repr

/-- The anchored regex `^/status[/]?$` (`agent.go` line 233). -/
def statusReMatches (p : String) : Bool := p == "/status" || p == "/status/"

/-- The anchored regex `^/stop[/]?$` (`agent.go` line 234). -/
def stopReMatches (p : String) : Bool := p == "/stop" || p == "/stop/"

/-- `Agent.HandleHTTP` (`agent.go` lines 238-264): `GET /status` responds
200 with the status snapshot, its `Status` field overwritten with
`StatusRunning`; `POST /stop` responds 200 `"OK"` (the asynchronous
`SIGTERM` it spawns is a concurrent effect outside this model); anything
else responds 404. -/
def Agent.handleHTTP (a : AgentState) (method : HTTPMethod) (path : String) :
    HTTPResponse :=
  if method = HTTPMethod.get ∧ statusReMatches path = true then
    let status := Agent.statusOf a
    let status := { status with status := SchedulerStatus.running }
    ⟨200, HTTPBody.statusJson status⟩
  else if method = HTTPMethod.post ∧ stopReMatches path = true then
    ⟨200, HTTPBody.okText⟩
  else
    ⟨404, HTTPBody.errorText 404 "Not found"⟩

/-- `errDAGIsAlreadyRunning`'s message text (`agent.go` line 78). -/
def errDAGIsAlreadyRunningMsg : String := "the DAG is already running"

/-- `Agent.checkIsAlreadyRunning` (`agent.go` lines 445-454): given the
status observed from `engine.GetCurrentStatus`, fail with the
DAG-already-running error — `fmt.Errorf("%w. socket=%s", ...)` — whenever
that status is not `StatusNone`. Returns the error message, or `none` for
success. -/
def Agent.checkIsAlreadyRunning (currentStatus : SchedulerStatus)
    (sockAddr : String) : Option String :=
  if currentStatus ≠ SchedulerStatus.none then
    some (errDAGIsAlreadyRunningMsg ++ ". socket=" ++ sockAddr)
  else
    Option.none

/-- Result of `Agent.Run`, one constructor per return site. -/
inductive RunResult
  | setupFailed
  | precondFailed
  | dryDone (schedOk : Bool)
  | statusCheckFailed
  | dagAlreadyRunning (errMsg : String)
  | dbFailed
  | sockSetupFailed
  | logOpenFailed
  | sockListenFailed
  | finished (schedOk : Bool)
  deriving DecidableEq, Repr

/-- Observable side effects of `Agent.Run` in the order they happen:
opening the history session (`historyStore.Open`, which also purges old
entries), writing a status snapshot (`historyStore.Write`), and invoking
`Scheduler.Schedule` (which is what executes steps). -/
inductive RunEvent
  | historyOpen
  | historyWrite
  | schedule
  deriving DecidableEq, Repr

/-- Outcomes of the stages `Agent.Run` sequences, embedded as an
environment: success/failure of setup, preconditions, database open,
socket setup, log open and socket listen; the dry-run flag; the status
observed by `engine.GetCurrentStatus` (`none` = the call itself failed);
and whether `Scheduler.Schedule` returns without error. -/
structure RunEnv where
  setupOk : Bool
  precondOk : Bool
  dry : Bool
  currentStatus : Option SchedulerStatus
  dbOk : Bool
  sockSetupOk : Bool
  logOpenOk : Bool
  sockListenOk : Bool
  schedOk : Bool
  deriving DecidableEq, Repr

/-- `Agent.Run` (`agent.go` lines 82-180): setup, precondition check,
dry-run shortcut, the single-instance guard (`checkIsAlreadyRunning`),
database open, socket setup, log open, first status write, socket listen,
scheduling, final status write. The concurrent status-writer and
first-status goroutines are outside this sequential model. Returns the
result and the trace of observable effects. -/
def Agent.runModel (env : RunEnv) (sockAddr : String) : RunResult × List RunEvent :=
  if env.setupOk = false then (RunResult.setupFailed, [])
  else if env.precondOk = false then (RunResult.precondFailed, [])
  else if env.dry = true then (RunResult.dryDone env.schedOk, [RunEvent.schedule])
  else
    match env.currentStatus with
    | Option.none => (RunResult.statusCheckFailed, [])
    | some st =>
      match Agent.checkIsAlreadyRunning st sockAddr with
      | some errMsg => (RunResult.dagAlreadyRunning errMsg, [])
      | Option.none =>
        if env.dbOk = false then (RunResult.dbFailed, [RunEvent.historyOpen])
        else if env.sockSetupOk = false then
          (RunResult.sockSetupFailed, [RunEvent.historyOpen])
        else if env.logOpenOk = false then
          (RunResult.logOpenFailed, [RunEvent.historyOpen])
        else if env.sockListenOk = false then
          (RunResult.sockListenFailed, [RunEvent.historyOpen, RunEvent.historyWrite])
        else
          (RunResult.finished env.schedOk,
            [RunEvent.historyOpen, RunEvent.historyWrite, RunEvent.schedule,
              RunEvent.historyWrite])

/-! ## Concrete fixtures used by witnesses and counterexamples -/

/-- A persisted status whose start time parses to 2022-02-01T02:02:02Z. -/
def stSuccess : MStatus :=
  { requestId := "req-1", name := "dag-1", status := SchedulerStatus.success,
    startedAt := "2022-02-01T02:02:02Z", finishedAt := "-" }

/-- The minute boundary containing `stSuccess.startedAt`
(2022-02-01T02:02:00Z as nanoseconds since the Go zero time). -/
def minuteM0 : Int := truncMinute ((ParseTime "2022-02-01T02:02:02Z").getD 0)

/-- An every-minute job with `SkipIfSuccessful` firing at `minuteM0`. -/
def jobAtM0 : JobImpl :=
  { skipIfSuccessful := true, next := minuteM0, schedNext := everyMinuteNext }

/-! ## Claim theorems -/

/-- Claim C1: for every job and latest-status value, if
`Client.GetLatestStatus` reports `StatusRunning` then `jobImpl.Start`
returns `errJobRunning` and does not invoke `Client.Start`; hence the cron
loop never fires `Start` on a DAG whose latest status is `Running`. -/
theorem claimC1_running_skips_start (job : JobImpl) (latestStatus : MStatus)
    (hRunning : latestStatus.status = SchedulerStatus.running) :
    JobImpl.start job (some latestStatus) = StartOutcome.jobErr JobErr.jobRunning ∧
      JobImpl.start job (some latestStatus) ≠ StartOutcome.started := by
  simp [JobImpl.start, hRunning]

/-- Witness for claim C1 at a concrete running status. -/
theorem claimC1_witness :
    JobImpl.start jobAtM0 (some { stSuccess with status := SchedulerStatus.running }) =
        StartOutcome.jobErr JobErr.jobRunning ∧
      JobImpl.start jobAtM0 (some { stSuccess with status := SchedulerStatus.running }) ≠
        StartOutcome.started :=
  claimC1_running_skips_start jobAtM0 _ rfl

/-- Claim C2: for every job whose latest status is not `Running` and whose
persisted `StartedAt` parses, if the minute-truncated start time is on or
after the entry's `Next` time then `jobImpl.Start` returns
`errJobFinished` and does not invoke `Client.Start`. -/
theorem claimC2_already_finished (job : JobImpl) (latestStatus : MStatus) (t : Int)
    (hNotRunning : latestStatus.status ≠ SchedulerStatus.running)
    (hParse : ParseTime latestStatus.startedAt = some t)
    (hGe : job.next ≤ truncMinute t) :
    JobImpl.start job (some latestStatus) = StartOutcome.jobErr JobErr.jobFinished ∧
      JobImpl.start job (some latestStatus) ≠ StartOutcome.started := by
  have hcond : truncMinute t > job.next ∨ truncMinute t = job.next := by omega
  simp [JobImpl.start, JobImpl.ready, hNotRunning, hParse, hcond]

/-- Witness for claim C2: the job fires again at the very minute of the
last recorded start. -/
theorem claimC2_witness :
    JobImpl.start jobAtM0 (some stSuccess) = StartOutcome.jobErr JobErr.jobFinished ∧
      JobImpl.start jobAtM0 (some stSuccess) ≠ StartOutcome.started :=
  claimC2_already_finished jobAtM0 stSuccess
    ((ParseTime "2022-02-01T02:02:02Z").getD 0)
    (by decide) (by decide) (by decide)

/-- Claim C3: for a job with `DAG.SkipIfSuccessful` whose latest run
succeeded and whose minute-truncated start time is strictly before `Next`:
a start time in the window `[prevExecTime, Next)` makes `jobImpl.Start`
return `errJobSuccess`, and a start time before `prevExecTime` lets it
proceed to `Client.Start`. -/
theorem claimC3_skip_window (job : JobImpl) (latestStatus : MStatus) (t : Int)
    (hSkip : job.skipIfSuccessful = true)
    (hSuccess : latestStatus.status = SchedulerStatus.success)
    (hParse : ParseTime latestStatus.startedAt = some t)
    (hBefore : truncMinute t < job.next) :
    (job.prevExecTime ≤ truncMinute t →
        JobImpl.start job (some latestStatus) = StartOutcome.jobErr JobErr.jobSuccess) ∧
      (truncMinute t < job.prevExecTime →
        JobImpl.start job (some latestStatus) = StartOutcome.started) := by
  have hNotRunning : latestStatus.status ≠ SchedulerStatus.running := by
    rw [hSuccess]; simp
  have hnfin : ¬(truncMinute t > job.next ∨ truncMinute t = job.next) := by omega
  constructor
  · intro hIn
    have hwin : (truncMinute t > job.prevExecTime ∨ truncMinute t = job.prevExecTime) ∧
        truncMinute t < job.next := by omega
    simp [JobImpl.start, JobImpl.ready, JobImpl.skipIfSuccessfulCheck, hNotRunning,
      hParse, hSuccess, hSkip, hwin, hnfin]
  · intro hOut
    have hnwin : ¬((truncMinute t > job.prevExecTime ∨ truncMinute t = job.prevExecTime) ∧
        truncMinute t < job.next) := by
      intro h
      omega
    simp [JobImpl.start, JobImpl.ready, JobImpl.skipIfSuccessfulCheck, hNotRunning,
      hParse, hSuccess, hSkip, hnwin, hnfin]

/-- Witness for claim C3: a success recorded in the previous minute is in
the window of an every-minute job firing one minute later, so the job is
skipped with `errJobSuccess`. -/
theorem claimC3_witness :
    JobImpl.start { jobAtM0 with next := minuteM0 + minuteNs } (some stSuccess) =
      StartOutcome.jobErr JobErr.jobSuccess :=
  (claimC3_skip_window { jobAtM0 with next := minuteM0 + minuteNs } stSuccess
      ((ParseTime "2022-02-01T02:02:02Z").getD 0)
      (by decide) (by decide) (by decide) (by decide)).1 (by decide)

/-- Claim C10 (implicit): when the latest status is not `Running` and the
persisted `StartedAt` does not parse, `ready` returns no error — the
already-finished and skip-if-successful guards are bypassed — and
`jobImpl.Start` proceeds to invoke `Client.Start`. -/
theorem claimC10_parse_failure_no_skip (job : JobImpl) (latestStatus : MStatus)
    (hNotRunning : latestStatus.status ≠ SchedulerStatus.running)
    (hParse : ParseTime latestStatus.startedAt = Option.none) :
    job.ready latestStatus = Option.none ∧
      JobImpl.start job (some latestStatus) = StartOutcome.started := by
  simp [JobImpl.start, JobImpl.ready, hNotRunning, hParse]

/-- Witness for claim C10 at an unparsable `StartedAt`. -/
theorem claimC10_witness :
    jobAtM0.ready { stSuccess with startedAt := "(unknown)" } = Option.none ∧
      JobImpl.start jobAtM0 (some { stSuccess with startedAt := "(unknown)" }) =
        StartOutcome.started :=
  claimC10_parse_failure_no_skip jobAtM0 _ (by decide) (by decide)

/-- Claim C9 (implicit): once the graph has started, `Agent.Status` never
reports an overall status of `None` — a scheduler status of `None` is
coerced to `Running` in the snapshot. -/
theorem claimC9_started_never_none (a : AgentState)
    (hStarted : a.graphStarted = true) :
    (Agent.statusOf a).status ≠ SchedulerStatus.none := by
  by_cases hs : a.schedulerStatus = SchedulerStatus.none
  · simp [Agent.statusOf, hs, hStarted]
  · simp [Agent.statusOf, hs, hStarted]

/-- A started agent whose scheduler still reports `StatusNone`. -/
def agentJustStarted : AgentState :=
  { schedulerStatus := SchedulerStatus.none, graphStarted := true,
    reqID := "req-1", dagName := "dag-1", startAt := "-", finishAt := "-" }

/-- Witness for claim C9: a started graph whose scheduler status is still
`None` reports `Running`. -/
theorem claimC9_witness :
    (Agent.statusOf agentJustStarted).status ≠ SchedulerStatus.none :=
  claimC9_started_never_none agentJustStarted rfl

/-- Counterexample to claim C4: with cron `* * * * *`,
`skipIfSuccessful=true` and a prior `Success` started inside minute
`minuteM0`, a firing whose `Next` is `minuteM0` returns `errJobFinished`
— not `errJobSuccess` as the claim states — because the already-finished
guard (`lastStart ≥ Next` after minute truncation) fires first. -/
theorem claimC4_counterexample :
    JobImpl.start jobAtM0 (some stSuccess) = StartOutcome.jobErr JobErr.jobFinished ∧
      JobImpl.start jobAtM0 (some stSuccess) ≠ StartOutcome.jobErr JobErr.jobSuccess := by
  constructor
  · decide
  · decide

/-- Claim C4 (amended): with cron `* * * * *`, `skipIfSuccessful=true` and
a latest `Success` whose start time lies inside minute `m0`, a firing
whose `Next` time is `m0` has `jobImpl.Start` return `errJobFinished`. -/
theorem claimC4_amended (m0 : Int) (latestStatus : MStatus) (t : Int)
    (_hAligned : truncMinute m0 = m0)
    (hSuccess : latestStatus.status = SchedulerStatus.success)
    (hParse : ParseTime latestStatus.startedAt = some t)
    (hInMinute : truncMinute t = m0) :
    JobImpl.start { skipIfSuccessful := true, next := m0, schedNext := everyMinuteNext }
        (some latestStatus) = StartOutcome.jobErr JobErr.jobFinished := by
  have hNotRunning : latestStatus.status ≠ SchedulerStatus.running := by
    rw [hSuccess]; simp
  have hcond : truncMinute t > m0 ∨ truncMinute t = m0 := Or.inr hInMinute
  simp [JobImpl.start, JobImpl.ready, hNotRunning, hParse, hcond]

/-- Witness for the amended claim C4 at the concrete fixture. -/
theorem claimC4_witness :
    JobImpl.start jobAtM0 (some stSuccess) = StartOutcome.jobErr JobErr.jobFinished :=
  claimC4_amended minuteM0 stSuccess ((ParseTime "2022-02-01T02:02:02Z").getD 0)
    (by decide) (by decide) (by decide) (by decide)

/-- A run environment in which every stage succeeds but the
single-instance check observes a latest persisted status of `Success`. -/
def envObservesSuccess : RunEnv :=
  { setupOk := true, precondOk := true, dry := false,
    currentStatus := some SchedulerStatus.success, dbOk := true,
    sockSetupOk := true, logOpenOk := true, sockListenOk := true, schedOk := true }

/-- Counterexample to claim C5: the single-instance check observes a
current status of `Success` — not `Running` — yet `Agent.Run` still fails
with the DAG-already-running error, so "fails if and only if the check
observes `Running`" is false. -/
theorem claimC5_counterexample :
    (Agent.runModel envObservesSuccess "/tmp/dag-1.sock").1 =
        RunResult.dagAlreadyRunning
          (errDAGIsAlreadyRunningMsg ++ ". socket=" ++ "/tmp/dag-1.sock") ∧
      SchedulerStatus.success ≠ SchedulerStatus.running := by
  constructor
  · decide
  · decide

/-- Claim C5 (amended): when `Agent.Run` reaches the single-instance
check (setup and preconditions succeeded, not a dry run), it fails with
the DAG-already-running error — whose message carries the DAG's socket
address — exactly when the check observes a current status other than
`None`; on that failure nothing has executed: the trace carries no
scheduling and no history effect. -/
theorem claimC5_amended (env : RunEnv) (st : SchedulerStatus) (sockAddr : String)
    (hSetup : env.setupOk = true) (hPre : env.precondOk = true)
    (hDry : env.dry = false) (hCur : env.currentStatus = some st) :
    ((Agent.runModel env sockAddr).1 =
        RunResult.dagAlreadyRunning (errDAGIsAlreadyRunningMsg ++ ". socket=" ++ sockAddr)
      ↔ st ≠ SchedulerStatus.none) ∧
    (st ≠ SchedulerStatus.none → (Agent.runModel env sockAddr).2 = []) := by
  by_cases hst : st = SchedulerStatus.none
  · subst hst
    constructor
    · constructor
      · intro h
        exfalso
        by_cases h1 : env.dbOk <;> by_cases h2 : env.sockSetupOk <;>
          by_cases h3 : env.logOpenOk <;> by_cases h4 : env.sockListenOk <;>
          simp [Agent.runModel, Agent.checkIsAlreadyRunning, hSetup, hPre, hDry, hCur,
            h1, h2, h3, h4] at h
      · intro h
        exact absurd rfl h
    · intro h
      exact absurd rfl h
  · constructor
    · simp [Agent.runModel, Agent.checkIsAlreadyRunning, hSetup, hPre, hDry, hCur, hst]
    · intro _
      simp [Agent.runModel, Agent.checkIsAlreadyRunning, hSetup, hPre, hDry, hCur, hst]

/-- Witness for the amended claim C5 at the concrete environment that
observes a `Success` status. -/
theorem claimC5_witness :
    ((Agent.runModel envObservesSuccess "/tmp/dag-1.sock").1 =
        RunResult.dagAlreadyRunning
          (errDAGIsAlreadyRunningMsg ++ ". socket=" ++ "/tmp/dag-1.sock")
      ↔ SchedulerStatus.success ≠ SchedulerStatus.none) ∧
    (SchedulerStatus.success ≠ SchedulerStatus.none →
      (Agent.runModel envObservesSuccess "/tmp/dag-1.sock").2 = []) :=
  claimC5_amended envObservesSuccess SchedulerStatus.success "/tmp/dag-1.sock"
    rfl rfl rfl rfl

/-- Claim C8: every `GET` request whose path matches `/status` (with or
without a trailing slash) is answered 200 with the JSON status snapshot
whose `Status` field is forced to `Running`, regardless of the
scheduler's actual status. -/
theorem claimC8_status_forced_running (a : AgentState) (path : String)
    (hPath : statusReMatches path = true) :
    Agent.handleHTTP a HTTPMethod.get path =
      ⟨200, HTTPBody.statusJson { Agent.statusOf a with status := SchedulerStatus.running }⟩ := by
  simp [Agent.handleHTTP, hPath]

/-- Witness for claim C8: a cancelled run still reports `Running` over
`GET /status`. -/
theorem claimC8_witness :
    Agent.handleHTTP { agentJustStarted with schedulerStatus := SchedulerStatus.cancel }
        HTTPMethod.get "/status/" =
      ⟨200, HTTPBody.statusJson
        { Agent.statusOf { agentJustStarted with schedulerStatus := SchedulerStatus.cancel } with
            status := SchedulerStatus.running }⟩ :=
  claimC8_status_forced_running _ "/status/" rfl

/-! ## Fusing the two loops of `ParsePipedCommand` into the one-pass
specification splitter -/

/-- A list extended by one element is never a given singleton unless the
list was empty and the elements agree. -/
theorem append_singleton {l : List Char} {r c : Char} (h : l ++ [r] = [c]) :
    l = [] ∧ r = c := by
  cases l with
  | nil =>
    simp only [List.nil_append, List.cons.injEq] at h
    exact ⟨rfl, h.1⟩
  | cons a as => simp at h

/-- A token built from characters other than the single character `|` is
not the separator token. -/
theorem mk_ne_pipe {current : List Char} (h : current ≠ ['|']) :
    String.mk current ≠ "|" := by
  intro hs
  apply h
  have hd : (String.mk current).data = ("|" : String).data := by rw [hs]
  simpa using hd

/-- The tokenizer only appends to its token accumulator. -/
theorem tokenizeGo_acc (cs : List Char) :
    ∀ (st : TokState) (current : List Char) (ts1 ts2 : List String),
      tokenizeGo cs st current (ts1 ++ ts2) = ts1 ++ tokenizeGo cs st current ts2 := by
  induction cs with
  | nil =>
    intro st current ts1 ts2
    by_cases hc : current = [] <;> simp [tokenizeGo, hc]
  | cons r rest ih =>
    intro st current ts1 ts2
    simp only [tokenizeGo]
    split_ifs with h1 h2 h3 h4 h5 h6 <;>
      first
        | exact ih _ _ ts1 ts2
        | · simp only [List.append_assoc]
            exact ih _ _ ts1 _

/-- Running the tokenizer with a nonempty token accumulator prepends that
accumulator to the result. -/
theorem tokenizeGo_append (cs : List Char) (st : TokState) (current : List Char)
    (tokens : List String) :
    tokenizeGo cs st current tokens = tokens ++ tokenizeGo cs st current [] := by
  have h := tokenizeGo_acc cs st current tokens []
  simpa using h

/-- Grouping a separator token closes the current segment (dropping it if
empty). -/
theorem group_pipe_cons (T : List String) (seg : List String)
    (acc : List (List String)) :
    groupTokens ("|" :: T) seg acc = groupTokens T [] (closeSeg seg acc) := by
  by_cases hs : seg = [] <;> simp [groupTokens, closeSeg, hs]

/-- Grouping a non-separator token appends it to the current segment. -/
theorem group_tok_cons (tok : String) (htok : tok ≠ "|") (T : List String)
    (seg : List String) (acc : List (List String)) :
    groupTokens (tok :: T) seg acc = groupTokens T (seg ++ [tok]) acc := by
  simp [groupTokens, htok]

/-- Fusion of the two loops of `ParsePipedCommand`: grouping the token
stream produced by the tokenizer computes exactly the one-pass splitter of
the amended claim C6. The invariant says that a fresh token can only start
in the neutral state, and that an accumulated token is never the bare
separator `['|']`. -/
theorem group_tokenize_spec (cs : List Char) :
    ∀ (q b e : Bool) (current : List Char) (seg : List String)
      (acc : List (List String)),
      (current = [] → q = false ∧ b = false ∧ e = false) →
      current ≠ ['|'] →
      groupTokens (tokenizeGo cs ⟨q, b, e⟩ current []) seg acc =
        splitPipelineSpecCore cs q b e current seg acc := by
  induction cs with
  | nil =>
    intro q b e current seg acc hinv hne
    by_cases hc : current = []
    · by_cases hs : seg = [] <;>
        simp [tokenizeGo, splitPipelineSpecCore, closeTok, closeSeg, groupTokens, hc, hs]
    · have hmk := mk_ne_pipe hne
      simp [tokenizeGo, splitPipelineSpecCore, closeTok, closeSeg, groupTokens, hc, hmk]
  | cons r rest ih =>
    intro q b e current seg acc hinv hne
    by_cases h1 : e = true
    · subst h1
      have hcur : current ≠ [] := by
        intro hc
        exact absurd (hinv hc).2.2 (by simp)
      have hne' : current ++ [r] ≠ ['|'] := by
        intro hcc
        exact hcur (append_singleton hcc).1
      simp only [tokenizeGo, splitPipelineSpecCore, if_true]
      exact ih q b false (current ++ [r]) seg acc (fun hc => absurd hc (by simp)) hne'
    · have he : e = false := by revert h1; cases e <;> simp
      subst he
      by_cases h2 : r = '\\'
      · subst h2
        have hne' : current ++ ['\\'] ≠ ['|'] := by
          intro hcc
          exact absurd (append_singleton hcc).2 (by decide)
        simp [tokenizeGo, splitPipelineSpecCore]
        exact ih q b true (current ++ ['\\']) seg acc (fun hc => absurd hc (by simp)) hne'
      · by_cases h3 : r = '"' ∧ b = false
        · obtain ⟨h3r, h3b⟩ := h3
          subst h3r
          subst h3b
          have hne' : current ++ ['"'] ≠ ['|'] := by
            intro hcc
            exact absurd (append_singleton hcc).2 (by decide)
          simp [tokenizeGo, splitPipelineSpecCore, h2]
          exact ih (!q) false false (current ++ ['"']) seg acc
            (fun hc => absurd hc (by simp)) hne'
        · by_cases h4 : r = '`'
          · subst h4
            have hne' : current ++ ['`'] ≠ ['|'] := by
              intro hcc
              exact absurd (append_singleton hcc).2 (by decide)
            simp [tokenizeGo, splitPipelineSpecCore, h2, h3]
            exact ih q (!b) false (current ++ ['`']) seg acc
              (fun hc => absurd hc (by simp)) hne'
          · by_cases h5 : r = '|' ∧ q = false ∧ b = false
            · obtain ⟨h5r, h5q, h5b⟩ := h5
              subst h5r
              subst h5q
              subst h5b
              by_cases hc : current = []
              · simp [tokenizeGo, splitPipelineSpecCore, h2, h3, h4, hc, closeTok]
                rw [tokenizeGo_append rest ⟨false, false, false⟩ [] ["|"]]
                simp only [List.singleton_append]
                rw [group_pipe_cons]
                exact ih false false false [] [] (closeSeg seg acc)
                  (fun _ => ⟨rfl, rfl, rfl⟩) (by simp)
              · have hmk := mk_ne_pipe hne
                simp [tokenizeGo, splitPipelineSpecCore, h2, h3, h4, hc, closeTok]
                rw [tokenizeGo_append rest ⟨false, false, false⟩ [] [String.mk current, "|"]]
                simp only [List.cons_append, List.nil_append]
                rw [group_tok_cons (String.mk current) hmk, group_pipe_cons]
                exact ih false false false [] [] (closeSeg (seg ++ [String.mk current]) acc)
                  (fun _ => ⟨rfl, rfl, rfl⟩) (by simp)
            · by_cases h6 : goIsSpace r = true ∧ q = false ∧ b = false
              · obtain ⟨h6r, h6q, h6b⟩ := h6
                subst h6q
                subst h6b
                have h3' : r ≠ '"' := fun hr => h3 ⟨hr, rfl⟩
                have h5' : r ≠ '|' := fun hr => h5 ⟨hr, rfl, rfl⟩
                by_cases hc : current = []
                · simp [tokenizeGo, splitPipelineSpecCore, h2, h3', h4, h5', h6r, hc,
                    closeTok]
                  exact ih false false false [] seg acc
                    (fun _ => ⟨rfl, rfl, rfl⟩) (by simp)
                · have hmk := mk_ne_pipe hne
                  simp [tokenizeGo, splitPipelineSpecCore, h2, h3', h4, h5', h6r, hc,
                    closeTok]
                  rw [tokenizeGo_append rest ⟨false, false, false⟩ [] [String.mk current]]
                  simp only [List.singleton_append]
                  rw [group_tok_cons (String.mk current) hmk]
                  exact ih false false false [] (seg ++ [String.mk current]) acc
                    (fun _ => ⟨rfl, rfl, rfl⟩) (by simp)
              · have hne' : current ++ [r] ≠ ['|'] := by
                  intro hcc
                  obtain ⟨hc0, hr⟩ := append_singleton hcc
                  obtain ⟨hq, hb, -⟩ := hinv hc0
                  exact h5 ⟨hr, hq, hb⟩
                simp [tokenizeGo, splitPipelineSpecCore, h2, h3, h4, h5, h6]
                exact ih q b false (current ++ [r]) seg acc
                  (fun hc => absurd hc (by simp)) hne'

/-- `ParsePipedCommand` computes the one-pass splitter of the amended
claim C6. -/
theorem parsePipedCommand_eq_spec (s : String) :
    ParsePipedCommand s = splitPipelineSpec s :=
  group_tokenize_spec s.toList false false false [] [] []
    (fun _ => ⟨rfl, rfl, rfl⟩) (by simp)

/-- Counterexample to claim C6: in `a \| b` the `|` is outside double
quotes and outside backticks, so by the claim's wording the command
splits into two pipeline segments; the code, however, treats the
backslash as an escape and keeps `\|` inside a single token of a single
segment. -/
theorem claimC6_counterexample :
    SplitCommand "a \\| b" = Except.ok ("a", ["\\|", "b"]) ∧
      claimSplitCommand "a \\| b" = Except.ok ("a", ["\\", "|", "b"]) ∧
      SplitCommand "a \\| b" ≠ claimSplitCommand "a \\| b" := by
  have h1 : SplitCommand "a \\| b" = Except.ok ("a", ["\\|", "b"]) := rfl
  have h2 : claimSplitCommand "a \\| b" = Except.ok ("a", ["\\", "|", "b"]) := rfl
  refine ⟨h1, h2, ?_⟩
  rw [h1, h2]
  simp

/-- Claim C6 (amended): `SplitCommand` splits its input into pipeline
segments at `|` characters that are outside double quotes, outside
backticks and not escaped by a backslash (a `|` inside double quotes,
inside backticks, or preceded by a backslash stays within its token, as
does whitespace); when more than one segment results, the returned
command is the first token of the first segment and the args are the
remaining tokens of the first segment followed by, for each later
segment, a literal `"|"` token and that segment's tokens. -/
theorem claimC6_split_amended (s : String) :
    ParsePipedCommand s = splitPipelineSpec s ∧
      (∀ (c : String) (restTok : List String) (restSegs : List (List String)),
        splitPipelineSpec s = (c :: restTok) :: restSegs →
        restSegs ≠ [] →
        SplitCommand s =
          Except.ok (c, restTok ++ (restSegs.map (fun seg => "|" :: seg)).flatten)) := by
  refine ⟨parsePipedCommand_eq_spec s, ?_⟩
  intro c restTok restSegs hspec hnil
  unfold SplitCommand flattenPipeline
  rw [parsePipedCommand_eq_spec s, hspec]
  have hlen : 1 < ((c :: restTok) :: restSegs).length := by
    cases restSegs with
    | nil => exact absurd rfl hnil
    | cons a as => simp
  rw [if_pos hlen]

/-- Witness for the amended claim C6 on a three-stage pipeline with a
quoted pipe. -/
theorem claimC6_witness :
    SplitCommand "echo \"a|b\" | grep a | wc -l" =
      Except.ok ("echo", ["\"a|b\"", "|", "grep", "a", "|", "wc", "-l"]) :=
  (claimC6_split_amended "echo \"a|b\" | grep a | wc -l").2
    "echo" ["\"a|b\""] [["grep", "a"], ["wc", "-l"]] (by decide) (by decide)

/-- Counterexample to claim C7: in `a | b c` the second pipeline segment
has two tokens and is evaluated, but the first segment consists of the
single token `a`, which `SplitCommandWithEval` leaves unevaluated
(`cmdutil.go` line 105 skips segments shorter than two tokens), while the
claim's wording evaluates it. -/
theorem claimC7_counterexample :
    SplitCommandWithEval (fun s => s ++ "!") "a | b c" =
        Except.ok ("a", ["|", "b!", "c!"]) ∧
      claimSplitCommandWithEval (fun s => s ++ "!") "a | b c" =
        Except.ok ("a!", ["|", "b!", "c!"]) ∧
      SplitCommandWithEval (fun s => s ++ "!") "a | b c" ≠
        claimSplitCommandWithEval (fun s => s ++ "!") "a | b c" := by
  have h1 : SplitCommandWithEval (fun s => s ++ "!") "a | b c" =
      Except.ok ("a", ["|", "b!", "c!"]) := rfl
  have h2 : claimSplitCommandWithEval (fun s => s ++ "!") "a | b c" =
      Except.ok ("a!", ["|", "b!", "c!"]) := rfl
  refine ⟨h1, h2, ?_⟩
  rw [h1, h2]
  simp

/-- Claim C7 (amended): `SplitCommandWithEval` applies the per-token
evaluation (environment expansion and backtick command substitution,
embedded as `evalFn`) to every argument of every pipeline segment that
consists of at least two tokens; a segment consisting of a single token
is passed through unevaluated. -/
theorem claimC7_eval_amended (evalFn : String → String) (s : String) :
    SplitCommandWithEval evalFn s =
      flattenPipeline ((splitPipelineSpec s).map (fun command =>
        if 2 ≤ command.length then command.map evalFn else command)) := by
  rw [show SplitCommandWithEval evalFn s =
      flattenPipeline ((ParsePipedCommand s).map (fun command =>
        if command.length < 2 then command else command.map evalFn)) from rfl]
  rw [parsePipedCommand_eq_spec s]
  apply congrArg flattenPipeline
  apply List.map_congr_left
  intro command _
  by_cases hlen : command.length < 2
  · rw [if_pos hlen, if_neg (by omega)]
  · rw [if_neg hlen, if_pos (by omega)]

end Dagman
